import Mathlib

/-!
Shallow embedding of the builder-pattern core of `@nestjs-builder/core`:
`BuilderService` (construction-time default seeding, Proxy-based dynamic
setter dispatch, `set`, `build`, `buildAsync`, `reset`, `from`, `toJSON`),
the `@DefaultValue` metadata store, and the `validateOrThrow` gate.
JavaScript objects are modelled as ordered association lists from field
names to values; the external `class-transformer` / `class-validator`
collaborators are modelled as an injected environment of a coercion
function and a violation-producing validator, as the spec prescribes.
-/

namespace NestBuilder

/-- A JavaScript runtime value, as far as the builder observes it:
strings, numbers, booleans and the distinguished `undefined`. -/
inductive Value where
  | str : String → Value
  | num : Int → Value
  | boolean : Bool → Value
  | undef : Value
deriving DecidableEq, Repr

/-- A plain object: ordered own enumerable fields. -/
abbrev Obj := List (String × Value)

/-- The `Reflect.defineMetadata "default"` sidecar store for one type:
latest registration for a field is the first matching entry. -/
abbrev Meta := List (String × Value)

/-- Property read on an object (`some` when the key is an own field). -/
def getField (s : Obj) (k : String) : Option Value :=
  (s.find? (fun p => p.1 == k)).map (fun p => p.2)

/-- JavaScript property assignment `s[k] = v`: update in place when the
key exists, append otherwise. -/
def assign : Obj → String → Value → Obj
  | [], k, v => [(k, v)]
  | p :: rest, k, v => if p.1 == k then (k, v) :: rest else p :: assign rest k v

/-- `Object.assign(s, entries)`: copy every present key of `entries`
onto `s`, in order. -/
def objAssign (s : Obj) (entries : Obj) : Obj :=
  entries.foldl (fun acc p => assign acc p.1 p.2) s

/-- `Reflect.getMetadata "default"`: the registered default for a field,
`undefined` when none is registered. -/
def lookupMeta (m : Meta) (k : String) : Value :=
  match m.find? (fun p => p.1 == k) with
  | some p => p.2
  | none => Value.undef

/-- A class (type descriptor): its own initialized fields, in declaration
order, and its `@DefaultValue` metadata. -/
structure Ctor where
  fields : Obj
  meta : Meta
deriving DecidableEq, Repr

/-- One iteration of the constructor's default-seeding loop:
`const def = Reflect.getMetadata("default", this.instance, key);
if (def !== undefined) this.instance[key] = def;`. -/
def seedStep (m : Meta) (acc : Obj) (k : String) : Obj :=
  let d := lookupMeta m k
  if d ≠ Value.undef then assign acc k d else acc

/-- The constructor's seeding pass: iterate `Object.keys(this.instance)`
of the fresh instance and apply each non-`undefined` registered default. -/
def seedDefaults (m : Meta) (flds : Obj) : Obj :=
  (flds.map Prod.fst).foldl (seedStep m) flds

/-- The builder's mutable state: the optional type descriptor captured at
construction and the in-progress instance. -/
structure BuilderState where
  ctor : Option Ctor
  inst : Obj
deriving DecidableEq, Repr

/-- `new BuilderService(ctor?)`: `this.instance = ctor ? new ctor() : {}`,
then, when a ctor is present, the default-seeding loop. -/
def mkBuilder : Option Ctor → BuilderState
  | some ct => ⟨some ct, seedDefaults ct.meta ct.fields⟩
  | none => ⟨none, []⟩

/-- Declared operation `set(key, value)`: `this.instance[key] = value`. -/
def setField (st : BuilderState) (k : String) (v : Value) : BuilderState :=
  { st with inst := assign st.inst k v }

/-- `reset()`: `this.instance = this.ctor ? new this.ctor() : {}` —
note the seeding loop is not run again. -/
def reset (st : BuilderState) : BuilderState :=
  { st with inst := match st.ctor with | some ct => ct.fields | none => [] }

/-- `from(obj)`: `Object.assign(this.instance, obj)`. -/
def fromObj (st : BuilderState) (obj : Obj) : BuilderState :=
  { st with inst := objAssign st.inst obj }

/-- `toJSON()`: returns the current instance. -/
def toJSON (st : BuilderState) : Obj := st.inst

/-- A field-level validation failure as the spec's `(field, constraint,
message)` triple. -/
structure Violation where
  vfield : String
  vconstraint : String
  message : String
deriving DecidableEq, Repr

/-- The injected external collaborators: `plainToInstance` (shape
coercion for a registered type) and `validateSync` (violation list). -/
structure ValidationEnv where
  coerce : Ctor → Obj → Obj
  validate : Obj → List Violation

/-- The instance handed to the validator inside `validateOrThrow`:
`ctor ? plainToInstance(ctor, obj) : obj`. -/
def coerceTarget (env : ValidationEnv) (st : BuilderState) : Obj :=
  match st.ctor with
  | some ct => env.coerce ct st.inst
  | none => st.inst

/-- `validateSync(instance, ...)` inside `validateOrThrow`. -/
def violationsOf (env : ValidationEnv) (st : BuilderState) : List Violation :=
  env.validate (coerceTarget env st)

/-- `build()`: run `validateOrThrow(this.instance, this.ctor)` — which
throws an error carrying the whole violation list when it is non-empty —
and otherwise return `this.instance` (the raw state, not the coerced copy). -/
def build (env : ValidationEnv) (st : BuilderState) : Except (List Violation) Obj :=
  if (violationsOf env st).length > 0 then Except.error (violationsOf env st)
  else Except.ok st.inst

/-- `async buildAsync() { return this.build(); }`: the promise resolves
with `build`'s return value or rejects with its exception. -/
def buildAsync (env : ValidationEnv) (st : BuilderState) : Except (List Violation) Obj :=
  build env st

/-- Outcome of the Proxy `get` trap for a property name. -/
inductive ProxyLookup where
  | dynamicSetter (key : String)
  | fallthrough
deriving DecidableEq, Repr

/-- `prop.startsWith("set")` for a string property. -/
def startsWithSet (s : String) : Bool :=
  match s.data with
  | 's' :: 'e' :: 't' :: _ => true
  | _ => false

/-- `prop.charAt(3).toLowerCase() + prop.slice(4)`. -/
def deriveKey (prop : String) : String :=
  match prop.data.drop 3 with
  | [] => ""
  | c :: cs => String.mk (Char.toLower c :: cs)

/-- The Proxy `get` trap: any string property starting with `"set"`
becomes a dynamic setter for the derived key; everything else falls
through to `Reflect.get(target, prop)`. -/
def proxyGet (prop : String) : ProxyLookup :=
  if startsWithSet prop then ProxyLookup.dynamicSetter (deriveKey prop) else ProxyLookup.fallthrough

/-- Calling the closure a dynamic setter lookup returns:
`(self.instance as any)[key] = value; return proxy;` — the proxy handle
captured at construction is returned, identified here by a number. -/
def dynSetterCall (proxy : Nat) (key : String) (st : BuilderState) (v : Value) :
    BuilderState × Nat :=
  ({ st with inst := assign st.inst key v }, proxy)

/-- A chain of property accesses invoked as calls on one handle: dynamic
setter lookups mutate the state and record the handle each call returned;
fall-through lookups dispatch to declared operations and are not mutator
calls. -/
def runChain (proxy : Nat) (st : BuilderState) : List (String × Value) → BuilderState × List Nat
  | [] => (st, [])
  | (prop, v) :: rest =>
    match proxyGet prop with
    | ProxyLookup.dynamicSetter key =>
      let r := dynSetterCall proxy key st v
      let next := runChain proxy r.1 rest
      (next.1, r.2 :: next.2)
    | ProxyLookup.fallthrough => runChain proxy st rest

/-! ### Helper lemmas about the object model -/

theorem getField_nil (j : String) : getField [] j = none := rfl

theorem getField_cons (p : String × Value) (rest : Obj) (j : String) :
    getField (p :: rest) j = if p.1 = j then some p.2 else getField rest j := by
  by_cases h : p.1 = j
  · simp [getField, List.find?_cons_of_pos, h]
  · have hb : (p.1 == j) = false := by simp [h]
    simp [getField, List.find?_cons_of_neg, hb, h]

theorem getField_assign (s : Obj) (k : String) (v : Value) (j : String) :
    getField (assign s k v) j = if j = k then some v else getField s j := by
  induction s with
  | nil =>
    by_cases h : j = k
    · simp [assign, getField_cons, h]
    · have hkj : ¬ (k = j) := fun h' => h h'.symm
      simp [assign, getField_cons, h, hkj, getField_nil]
  | cons p rest ih =>
    by_cases hpk : p.1 = k
    · simp only [assign, hpk, if_pos, beq_self_eq_true, if_true]
      by_cases hjk : j = k
      · simp [getField_cons, hjk]
      · have hkj : ¬ (k = j) := fun h' => hjk h'.symm
        simp [getField_cons, hkj, hjk, hpk]
    · have hb : (p.1 == k) = false := by simp [hpk]
      simp only [assign, hb, Bool.false_eq_true, if_false]
      by_cases hpj : p.1 = j
      · have hjk : ¬ (j = k) := by
          intro h'; exact hpk (hpj.trans h')
        simp [getField_cons, hpj, hjk]
      · simp [getField_cons, hpj, ih]

theorem lookupMeta_cons (p : String × Value) (rest : Meta) (k : String) :
    lookupMeta (p :: rest) k = if p.1 = k then p.2 else lookupMeta rest k := by
  by_cases h : p.1 = k
  · simp [lookupMeta, List.find?_cons_of_pos, h]
  · have hb : (p.1 == k) = false := by simp [h]
    simp [lookupMeta, List.find?_cons_of_neg, hb, h]

theorem getField_seedStep_ne (m : Meta) (acc : Obj) (k f : String) (hfk : f ≠ k) :
    getField (seedStep m acc k) f = getField acc f := by
  simp only [seedStep]
  by_cases hd : lookupMeta m k = Value.undef
  · simp [hd]
  · simp only [ne_eq, hd, not_false_iff, if_true]
    rw [getField_assign]
    simp [hfk]

theorem getField_seedFold_of_undef (m : Meta) (f : String)
    (h : lookupMeta m f = Value.undef) (ks : List String) :
    ∀ acc : Obj, getField (ks.foldl (seedStep m) acc) f = getField acc f := by
  induction ks with
  | nil => intro acc; rfl
  | cons k ks ih =>
    intro acc
    rw [List.foldl_cons, ih]
    by_cases hfk : f = k
    · subst hfk
      simp [seedStep, h]
    · exact getField_seedStep_ne m acc k f hfk

theorem getField_seedFold_not_mem (m : Meta) (f : String) (ks : List String)
    (hf : f ∉ ks) : ∀ acc : Obj, getField (ks.foldl (seedStep m) acc) f = getField acc f := by
  induction ks with
  | nil => intro acc; rfl
  | cons k ks ih =>
    intro acc
    have hfk : f ≠ k := fun h => hf (by simp [h])
    have hftl : f ∉ ks := fun h => hf (List.mem_cons_of_mem _ h)
    rw [List.foldl_cons, ih hftl]
    exact getField_seedStep_ne m acc k f hfk

theorem getField_seedFold_mem (m : Meta) (f : String) (d : Value)
    (hd : lookupMeta m f = d) (hne : d ≠ Value.undef) (ks : List String) :
    ∀ acc : Obj, f ∈ ks → getField (ks.foldl (seedStep m) acc) f = some d := by
  induction ks with
  | nil => intro acc h; cases h
  | cons k ks ih =>
    intro acc hmem
    rw [List.foldl_cons]
    by_cases hin : f ∈ ks
    · exact ih _ hin
    · have hfk : f = k := by
        rcases List.mem_cons.mp hmem with h | h
        · exact h
        · exact absurd h hin
      subst hfk
      rw [getField_seedFold_not_mem m f ks hin]
      simp only [seedStep, hd, ne_eq, hne, not_false_iff, if_true]
      rw [getField_assign]
      simp

theorem seedFold_congr (m₁ m₂ : Meta) (hm : ∀ k, lookupMeta m₁ k = lookupMeta m₂ k)
    (ks : List String) : ∀ acc : Obj, ks.foldl (seedStep m₁) acc = ks.foldl (seedStep m₂) acc := by
  induction ks with
  | nil => intro acc; rfl
  | cons k ks ih =>
    intro acc
    rw [List.foldl_cons, List.foldl_cons]
    have hstep : seedStep m₁ acc k = seedStep m₂ acc k := by
      simp [seedStep, hm k]
    rw [hstep, ih]

theorem seedDefaults_congr (m₁ m₂ : Meta) (flds : Obj)
    (hm : ∀ k, lookupMeta m₁ k = lookupMeta m₂ k) :
    seedDefaults m₁ flds = seedDefaults m₂ flds :=
  seedFold_congr m₁ m₂ hm (flds.map Prod.fst) flds

theorem lookupMeta_filter_self (m : Meta) (f : String) :
    lookupMeta (m.filter (fun p => p.1 != f)) f = Value.undef := by
  induction m with
  | nil => rfl
  | cons p rest ih =>
    by_cases hpf : p.1 = f
    · simp [List.filter_cons, hpf, ih]
    · have hb : (p.1 != f) = true := by simp [hpf]
      simp only [List.filter_cons, hb, if_true]
      rw [lookupMeta_cons]
      simp [hpf, ih]

theorem lookupMeta_filter_ne (m : Meta) (f k : String) (hk : k ≠ f) :
    lookupMeta (m.filter (fun p => p.1 != f)) k = lookupMeta m k := by
  induction m with
  | nil => rfl
  | cons p rest ih =>
    by_cases hpf : p.1 = f
    · have hpk : p.1 ≠ k := by rw [hpf]; exact fun h => hk h.symm
      simp [List.filter_cons, hpf, lookupMeta_cons, hpk, ih, Ne.symm hk]
    · have hb : (p.1 != f) = true := by simp [hpf]
      simp only [List.filter_cons, hb, if_true]
      rw [lookupMeta_cons, lookupMeta_cons, ih]

/-- Final value of a key among an entry list processed left to right:
the last occurrence wins, as with `Object.assign`. -/
def lookupLast : Obj → String → Option Value
  | [], _ => none
  | p :: rest, j =>
    match lookupLast rest j with
    | some v => some v
    | none => if p.1 = j then some p.2 else none

theorem getField_objAssign (entries : Obj) : ∀ (s : Obj) (j : String),
    getField (objAssign s entries) j =
      match lookupLast entries j with
      | some v => some v
      | none => getField s j := by
  induction entries with
  | nil => intro s j; rfl
  | cons p rest ih =>
    intro s j
    have hunf : objAssign s (p :: rest) = objAssign (assign s p.1 p.2) rest := rfl
    rw [hunf, ih]
    cases hl : lookupLast rest j with
    | some v => simp [lookupLast, hl]
    | none =>
      rw [getField_assign]
      by_cases hpj : p.1 = j
      · simp [lookupLast, hl, hpj]
      · have hjp : ¬ (j = p.1) := fun h => hpj h.symm
        simp [lookupLast, hl, hpj, hjp]

/-! ### Concrete fixtures -/

/-- A class with one field `role` initialized to `""` and
`@DefaultValue("guest")` registered for it. -/
def roleCtor : Ctor := ⟨[("role", Value.str "")], [("role", Value.str "guest")]⟩

/-- A class with one field `age` initialized to the string `"5"` and no
registered defaults. -/
def ageCtor : Ctor := ⟨[("age", Value.str "5")], []⟩

/-- An environment whose shape coercion converts the `age` field from a
string to a number (a declared string→number coercion) and whose
validator reports no violations. -/
def envCoerceAge : ValidationEnv :=
  ⟨fun _ o => o.map (fun p => if p.1 == "age" then (p.1, Value.num 5) else p),
   fun _ => []⟩

/-- The builder state freshly created for `ageCtor`. -/
def stAge : BuilderState := mkBuilder (some ageCtor)

/-- A violation on the `username` field. -/
def vUsername : Violation := ⟨"username", "isNotEmpty", "username should not be empty"⟩

/-- A violation on the `email` field. -/
def vEmail : Violation := ⟨"email", "isEmail", "email must be an email"⟩

/-- An environment whose validator reports two violations on two
independent fields (identity coercion). -/
def envTwoViolations : ValidationEnv := ⟨fun _ o => o, fun _ => [vUsername, vEmail]⟩

/-- An environment that reports no violations (identity coercion). -/
def envOk : ValidationEnv := ⟨fun _ o => o, fun _ => []⟩

/-! ### Claim theorems -/

/-- Claim C1, counterexample: with a declared string→number coercion on
field `age` and a validator reporting zero violations, `build` returns
the raw state, whose `age` field is the string `"5"`, while the coerced
instance carries the number `5` — so the returned value is not
field-wise equal to the state after shape coercion. -/
theorem build_not_coerced_counterexample :
    build envCoerceAge stAge = Except.ok stAge.inst ∧
    getField stAge.inst "age" = some (Value.str "5") ∧
    getField (coerceTarget envCoerceAge stAge) "age" = some (Value.num 5) ∧
    some (Value.str "5") ≠ some (Value.num 5) :=
  ⟨rfl, rfl, rfl, by decide⟩

/-- Claim C1, amended: when validation of the coerced copy reports zero
violations, `build` returns the builder's current raw (pre-coercion)
state unchanged; the coerced instance is only the validator's input. -/
theorem build_zero_violations_returns_state (env : ValidationEnv) (st : BuilderState)
    (h : violationsOf env st = []) : build env st = Except.ok st.inst := by
  simp [build, h]

/-- Witness for the amended claim C1 at a concrete builder. -/
theorem build_zero_violations_returns_state_witness :
    violationsOf envOk (mkBuilder (some roleCtor)) = [] ∧
    build envOk (mkBuilder (some roleCtor)) = Except.ok (mkBuilder (some roleCtor)).inst :=
  ⟨rfl, build_zero_violations_returns_state envOk (mkBuilder (some roleCtor)) rfl⟩

/-- Claim C2: `reset` rebuilds `new ctor()` but does not re-run the
default-seeding loop, so for a class whose `role` field is initialized
to `""` with registered default `"guest"`, a fresh builder shows
`"guest"` while the builder after `reset` shows `""` — the reset state
is not field-wise equal to a fresh builder's initial state. -/
theorem reset_drops_defaults :
    getField (mkBuilder (some roleCtor)).inst "role" = some (Value.str "guest") ∧
    getField (reset (mkBuilder (some roleCtor))).inst "role" = some (Value.str "") :=
  ⟨rfl, rfl⟩

/-- Claim C3: the Proxy `get` trap intercepts every property name
starting with `"set"`, including the declared operation `set` itself:
`proxyGet "set"` yields a dynamic setter for the derived key `""`
instead of falling through, so `handle.set("email", v)` assigns the
field named `""` to the string `"email"` rather than reaching the
declared set-by-key operation. -/
theorem declared_set_intercepted :
    proxyGet "set" = ProxyLookup.dynamicSetter "" ∧
    proxyGet "set" ≠ ProxyLookup.fallthrough ∧
    getField (dynSetterCall 0 (deriveKey "set") (mkBuilder none) (Value.str "email")).1.inst ""
      = some (Value.str "email") :=
  ⟨rfl, by decide, rfl⟩

/-- Claim C4: `build` raises exactly when the violation list is
non-empty, and the raised aggregate error carries the full ordered
violation list, never a truncation. -/
theorem build_aggregates_all_violations (env : ValidationEnv) (st : BuilderState) :
    (violationsOf env st ≠ [] → build env st = Except.error (violationsOf env st)) ∧
    ((∃ e, build env st = Except.error e) ↔ violationsOf env st ≠ []) := by
  constructor
  · intro h
    have hpos : 0 < (violationsOf env st).length := List.length_pos.mpr h
    simp [build, hpos]
  · constructor
    · rintro ⟨e, he⟩ h0
      simp [build, h0] at he
    · intro h
      exact ⟨violationsOf env st, by simp [build, List.length_pos.mpr h]⟩

/-- Witness for claim C4: a state with two independently-violating
fields yields one aggregate error listing exactly both violations. -/
theorem build_aggregates_all_violations_witness :
    build envTwoViolations (mkBuilder none) = Except.error [vUsername, vEmail] :=
  (build_aggregates_all_violations envTwoViolations (mkBuilder none)).1 (by decide)

/-- Claim C5: for a type whose buildable fields are own fields of a bare
instance, `create(T)` followed by `toJSON` shows each field with a
registered (non-`undefined`) default `d` as `d`, the default having
overwritten the shape-level initializer. -/
theorem create_then_toJSON_shows_default (ct : Ctor) (f : String) (d : Value)
    (hf : f ∈ ct.fields.map Prod.fst) (hd : lookupMeta ct.meta f = d)
    (hne : d ≠ Value.undef) :
    getField (toJSON (mkBuilder (some ct))) f = some d := by
  show getField (seedDefaults ct.meta ct.fields) f = some d
  exact getField_seedFold_mem ct.meta f d hd hne (ct.fields.map Prod.fst) ct.fields hf

/-- Witness for claim C5: the `role` field with initializer `""` and
registered default `"guest"` reads as `"guest"` right after creation. -/
theorem create_then_toJSON_shows_default_witness :
    ("role" ∈ roleCtor.fields.map Prod.fst) ∧
    lookupMeta roleCtor.meta "role" = Value.str "guest" ∧
    getField (toJSON (mkBuilder (some roleCtor))) "role" = some (Value.str "guest") :=
  ⟨by decide, by decide,
    create_then_toJSON_shows_default roleCtor "role" (Value.str "guest")
      (by decide) (by decide) (by decide)⟩

/-- Claim C6: a dynamically dispatched call named `set` followed by a
capitalized field name resolves to a dynamic setter whose key strips the
3-character `set` prefix, lower-cases exactly the first remaining
character and leaves the rest unchanged, and calling it assigns the
given value to exactly that field, leaving every other field unchanged. -/
theorem dynamic_setter_derives_and_assigns (c : Char) (cs : List Char) (v : Value)
    (p : Nat) (st : BuilderState) (_hc : c.isUpper = true) :
    proxyGet (String.mk ('s' :: 'e' :: 't' :: c :: cs)) =
      ProxyLookup.dynamicSetter (String.mk (Char.toLower c :: cs)) ∧
    (∀ j, getField (dynSetterCall p (String.mk (Char.toLower c :: cs)) st v).1.inst j =
      if j = String.mk (Char.toLower c :: cs) then some v else getField st.inst j) := by
  constructor
  · rfl
  · intro j
    exact getField_assign st.inst _ v j

/-- Witness for claim C6: `setUsername` derives the field `username`. -/
theorem dynamic_setter_derives_and_assigns_witness :
    Char.isUpper 'U' = true ∧
    String.mk ('s' :: 'e' :: 't' :: 'U' :: "sername".data) = "setUsername" ∧
    String.mk (Char.toLower 'U' :: "sername".data) = "username" ∧
    proxyGet (String.mk ('s' :: 'e' :: 't' :: 'U' :: "sername".data)) =
      ProxyLookup.dynamicSetter (String.mk (Char.toLower 'U' :: "sername".data)) :=
  ⟨by decide, by decide, by decide,
    (dynamic_setter_derives_and_assigns 'U' "sername".data (Value.str "ali") 0
      (mkBuilder none) (by decide)).1⟩

/-- Claim C7: along any chain of dynamically dispatched mutator calls on
one builder, every call returns the proxy handle captured at
construction — no call returns a different handle. -/
theorem chain_returns_construction_handle (proxy : Nat) (st : BuilderState)
    (calls : List (String × Value)) :
    (runChain proxy st calls).2.all (fun h => h == proxy) = true := by
  induction calls generalizing st with
  | nil => rfl
  | cons c rest ih =>
    obtain ⟨prop, v⟩ := c
    show (runChain proxy st ((prop, v) :: rest)).2.all (fun h => h == proxy) = true
    unfold runChain
    cases hpg : proxyGet prop with
    | dynamicSetter key => simp [dynSetterCall, List.all_cons, ih]
    | fallthrough => simp [ih]

/-- Claim C8: `buildAsync` delivers exactly the result of `build`: the
same built value on success and the same aggregate error on violations. -/
theorem buildAsync_equals_build (env : ValidationEnv) (st : BuilderState) :
    buildAsync env st = build env st ∧
    (∀ o, build env st = Except.ok o → buildAsync env st = Except.ok o) ∧
    (∀ e, build env st = Except.error e → buildAsync env st = Except.error e) :=
  ⟨rfl, fun _ h => h, fun _ h => h⟩

/-- Witness for claim C8: the asynchronous variant rejects with the same
aggregate error the synchronous path raises. -/
theorem buildAsync_equals_build_witness :
    buildAsync envTwoViolations (mkBuilder none) = Except.error [vUsername, vEmail] :=
  (buildAsync_equals_build envTwoViolations (mkBuilder none)).2.2 [vUsername, vEmail] rfl

/-- Claim C9: `from` (mergePartial) copies every present key of the
partial object onto the state — later occurrences overwriting earlier
state — and leaves every absent field untouched; merging `{a: 1}` then
`{b: 2}` yields a state with both `a = 1` and `b = 2`. -/
theorem mergePartial_semantics (st : BuilderState) (obj : Obj) (k : String) :
    (∀ v, lookupLast obj k = some v → getField (fromObj st obj).inst k = some v) ∧
    (lookupLast obj k = none → getField (fromObj st obj).inst k = getField st.inst k) ∧
    getField (fromObj (fromObj st [("a", Value.num 1)]) [("b", Value.num 2)]).inst "a"
      = some (Value.num 1) ∧
    getField (fromObj (fromObj st [("a", Value.num 1)]) [("b", Value.num 2)]).inst "b"
      = some (Value.num 2) := by
  refine ⟨?_, ?_, ?_, ?_⟩
  · intro v hv
    show getField (objAssign st.inst obj) k = some v
    rw [getField_objAssign, hv]
  · intro hn
    show getField (objAssign st.inst obj) k = getField st.inst k
    rw [getField_objAssign, hn]
  · have h1 := getField_objAssign [("b", Value.num 2)]
      (objAssign st.inst [("a", Value.num 1)]) "a"
    have h2 := getField_objAssign [("a", Value.num 1)] st.inst "a"
    exact h1.trans h2
  · exact getField_objAssign [("b", Value.num 2)] (objAssign st.inst [("a", Value.num 1)]) "b"

/-- Witness for claim C9 at a concrete merge. -/
theorem mergePartial_semantics_witness :
    getField (fromObj (mkBuilder none) [("a", Value.num 1)]).inst "a" = some (Value.num 1) :=
  (mergePartial_semantics (mkBuilder none) [("a", Value.num 1)] "a").1 (Value.num 1) rfl

/-- Claim C10: a field whose registered default is `undefined` is
skipped by the seeding loop — it keeps the class initializer's value —
and registering `undefined` for a field is indistinguishable from
having no registration for that field at all. -/
theorem undefined_default_skipped (m : Meta) (flds : Obj) (f : String)
    (h : lookupMeta m f = Value.undef) :
    getField (seedDefaults m flds) f = getField flds f ∧
    seedDefaults ((f, Value.undef) :: m) flds
      = seedDefaults (m.filter (fun p => p.1 != f)) flds := by
  constructor
  · exact getField_seedFold_of_undef m f h (flds.map Prod.fst) flds
  · apply seedDefaults_congr
    intro k
    by_cases hk : k = f
    · subst hk
      rw [lookupMeta_cons, lookupMeta_filter_self]
      simp
    · rw [lookupMeta_cons, lookupMeta_filter_ne m f k hk]
      simp [Ne.symm hk]

/-- Witness for claim C10: a field with a registered `undefined` default
keeps its initializer value. -/
theorem undefined_default_skipped_witness :
    lookupMeta [("x", Value.undef)] "x" = Value.undef ∧
    getField (seedDefaults [("x", Value.undef)] [("x", Value.str "init")]) "x"
      = some (Value.str "init") :=
  ⟨by decide,
    (undefined_default_skipped [("x", Value.undef)] [("x", Value.str "init")] "x" (by decide)).1⟩

end NestBuilder
